import Mathlib

/-!
Verification of the update-distribution service in `server.py`.

The service keeps a JSON mapping from version strings to metadata records
(`versions.json`), a directory of uploaded artifacts (`updates/`), and three
HTTP handlers: `check_update`, `download_update` and `upload_update`, plus the
helper `get_latest_version` that scans the store for the version that sorts
highest under `packaging.version` ordering.

The embedding below models:
  * Python dicts (the version store, the artifacts directory) as association
    lists with in-place update on an existing key (`dictInsert`), matching
    dict assignment semantics including key-order preservation;
  * a stored record (a JSON object with the five keys written by
    `upload_update`) as a structure of `Option`-valued fields, so that
    `d.get(key, default)` becomes `field.getD default` and the dict truthiness
    test `if not latest` becomes `recordTruthy`;
  * `packaging.version.parse` as `pep440Parse`, a conservative model of
    PEP 440 covering release-only versions `N(.N)*` (with packaging's
    trailing-zero comparison key and tuple comparison, so `"1.0"` parses and
    equals `"1.0.0"`, exactly as in `packaging`): every string it accepts is
    accepted by `packaging` with the same ordering, and a string it rejects
    is treated as raising `InvalidVersion` (the behaviour of
    `packaging >= 22`, propagated as `Except.error`). Because the modelled
    reject set is wider than PEP 440's (e.g. `"v1.2.3"` or `"1.0.0rc1"` are
    rejected here but parse in `packaging`), theorems draw raising
    conclusions only at concrete strings that PEP 440 also rejects (plain
    words such as `"banana"`), never from `pep440Parse = none` universally.
    Separately, `parseSemVer` is the specification's "parseable as a
    semantic version" predicate (plain all-numeric `major.minor.patch`),
    used to state the claims' domains; on that domain `pep440Parse` agrees
    with it and the comparison is exactly the numeric triple order;
  * Python exceptions as `Except String`, caught by the handlers' try/except
    blocks and converted to status-500 error responses;
  * the filesystem existence test used by `download_update` as an abstract
    predicate, and file bytes as `List Nat`.
-/

/-- One stored record of `versions.json`: the JSON object written by
`upload_update` has the keys `version`, `changelog`, `file_path`,
`file_size` and `uploaded_at`; each field is optional because the code reads
them back with `dict.get` and a default. -/
structure VersionRecord where
  version : Option String
  changelog : Option String
  file_path : Option String
  file_size : Option Nat
  uploaded_at : Option String
deriving DecidableEq

/-- The version store: the contents of `versions.json`, a Python dict from
version string to record, modelled as an association list in key order. -/
abbrev Store := List (String × VersionRecord)

/-- The artifacts directory: a mapping from file path to file bytes. -/
abbrev FS := List (String × List Nat)

/-- Python dict lookup `d[k]` / `k in d`. -/
def dictLookup {α : Type} : List (String × α) → String → Option α
  | [], _ => none
  | (k, v) :: rest, key => if k = key then some v else dictLookup rest key

/-- Python dict assignment `d[k] = v`: replaces the value in place when the
key is present (keeping its position), appends otherwise. -/
def dictInsert {α : Type} : List (String × α) → String → α → List (String × α)
  | [], key, v => [(key, v)]
  | (k, w) :: rest, key, v =>
    if k = key then (key, v) :: rest else (k, w) :: dictInsert rest key v

/-- Splits a character list on `.` (used to model version parsing). -/
def splitOnDot : List Char → List (List Char)
  | [] => [[]]
  | c :: rest =>
    if c = '.' then [] :: splitOnDot rest
    else
      match splitOnDot rest with
      | [] => [[c]]
      | h :: t => (c :: h) :: t

/-- Numeric value of a non-empty all-digit character list, `none` otherwise. -/
def digitsValAux : List Char → Nat → Option Nat
  | [], acc => some acc
  | c :: rest, acc =>
    if c.isDigit then digitsValAux rest (10 * acc + (c.toNat - 48)) else none

/-- Numeric value of a component of a version string. -/
def digitsVal : List Char → Option Nat
  | [] => none
  | c :: rest => digitsValAux (c :: rest) 0

/-- Numeric values of a list of version components; `none` when any
component is not a non-empty digit group. -/
def digitsList : List (List Char) → Option (List Nat)
  | [] => some []
  | c :: rest =>
    match digitsVal c, digitsList rest with
    | some n, some ns => some (n :: ns)
    | _, _ => none

/-- Model of `packaging.version.parse` (PEP 440), on the release-only
subset `N(.N)*`: a dot-separated sequence of numeric components yields its
release segment, anything else is `none`. The model is conservative: every
string it accepts is accepted by `packaging` with the same release segment
(epoch 0, no pre/post/dev/local parts), while its `none` set also contains
some exotic PEP 440 forms (`"v1.2.3"`, `"1.0.0rc1"`) that `packaging` would
parse — so raising behaviour is only ever concluded at concrete strings that
PEP 440 itself rejects. -/
def pep440Parse (s : String) : Option (List Nat) :=
  digitsList (splitOnDot s.data)

/-- `packaging`'s release comparison key: the release segment with trailing
zeros removed (`dropwhile(x == 0, reversed(release))`, reversed back), so
that `1.0` and `1.0.0` compare equal. -/
def releaseKey : List Nat → List Nat
  | [] => []
  | n :: rest =>
    match releaseKey rest with
    | [] => if n == 0 then [] else [n]
    | r => n :: r

/-- Python tuple comparison `<` on number sequences: lexicographic, with a
strict prefix sorting below its extensions. -/
def listLt : List Nat → List Nat → Bool
  | [], [] => false
  | [], _ :: _ => true
  | _ :: _, [] => false
  | a :: as1, b :: bs1 => decide (a < b) || (a == b && listLt as1 bs1)

/-- `packaging`'s strict version order on the modelled subset: comparison of
trailing-zero-stripped release tuples. -/
def pepLt (a b : List Nat) : Bool := listLt (releaseKey a) (releaseKey b)

/-- The specification's "parseable as a semantic version" predicate: a plain
all-numeric `major.minor.patch` string yields its triple, anything else is
`none`. This is the domain on which the claims state the ordering; it is the
restriction of `pep440Parse` to exactly three components. -/
def parseSemVer (s : String) : Option (Nat × Nat × Nat) :=
  match pep440Parse s with
  | some [x, y, z] => some (x, y, z)
  | _ => none

/-- Strict numeric comparison of `major.minor.patch` triples: major first,
then minor, then patch. On the plain-triple domain this is exactly
`packaging`'s ordering (see `pepLt_triple`). -/
def tripleLt : (Nat × Nat × Nat) → (Nat × Nat × Nat) → Bool
  | (a1, a2, a3), (b1, b2, b3) =>
    decide (a1 < b1) || (a1 == b1 && (decide (a2 < b2) || (a2 == b2 && decide (a3 < b3))))

/-- `packaging.version.parse`, with `InvalidVersion` modelled as a raised
exception. -/
def pkgParse (s : String) : Except String (List Nat) :=
  match pep440Parse s with
  | some v => .ok v
  | none => .error ("Invalid version: " ++ s)

/-- The comparison used by the service:
`pkg_version.parse(a) > pkg_version.parse(b)`, left operand parsed first, and
a parse failure raising. -/
def verGT (a b : String) : Except String Bool :=
  match pkgParse a with
  | .error e => .error e
  | .ok pa =>
    match pkgParse b with
    | .error e => .error e
    | .ok pb => .ok (pepLt pb pa)

/-- Non-strict version comparison, `a` at most `b`, defined on parseable
strings: used only to state maximality of the latest-version scan. -/
def verLe (a b : String) : Bool :=
  match parseSemVer a, parseSemVer b with
  | some pa, some pb => !tripleLt pb pa
  | _, _ => false

/-- The loop body of `get_latest_version`: for each `(ver, info)` item, take
it as latest when no latest is known yet or when
`pkg_version.parse(ver) > pkg_version.parse(latest_version)`. -/
def latestLoop : Store → Option String → Option VersionRecord → Except String (Option VersionRecord)
  | [], _, latest => .ok latest
  | (ver, info) :: rest, latest_version, latest =>
    match latest_version with
    | none => latestLoop rest (some ver) (some info)
    | some lv =>
      match verGT ver lv with
      | .error e => .error e
      | .ok true => latestLoop rest (some ver) (some info)
      | .ok false => latestLoop rest (some lv) latest

/-- `get_latest_version()` from `server.py`: `None` on an empty store, else
the scan over `versions.items()`. -/
def get_latest_version (versions : Store) : Except String (Option VersionRecord) :=
  match versions with
  | [] => .ok none
  | _ => latestLoop versions none none

/-- Python truthiness of a loaded record dict holding the five known keys:
`if not latest` is taken on the record, and an empty dict is falsy. -/
def recordTruthy (r : VersionRecord) : Bool :=
  r.version.isSome || r.changelog.isSome || r.file_path.isSome ||
    r.file_size.isSome || r.uploaded_at.isSome

/-- JSON body of a 200 response from `/update/check`. -/
structure CheckPayload where
  version : String
  changelog : String
  download_url : String
  file_size : Nat
deriving DecidableEq

/-- Response of `/update/check`: a 200 payload, or the 500 catch-all
`{"error": str(e)}`. -/
inductive CheckResponse where
  | ok (p : CheckPayload)
  | err (msg : String)
deriving DecidableEq

/-- HTTP status of a `/update/check` response. -/
def CheckResponse.status : CheckResponse → Nat
  | .ok _ => 200
  | .err _ => 500

/-- The `/update/check` handler. `current_version_param` is the
`current_version` query parameter (`none` when absent); `scheme` and `host`
come from the request and feed the download URL. -/
def check_update (current_version_param : Option String) (store : Store)
    (scheme host : String) : CheckResponse :=
  let current_version := current_version_param.getD "0.0.0"
  match get_latest_version store with
  | .error e => .err e
  | .ok none => .ok ⟨current_version, "", "", 0⟩
  | .ok (some latest) =>
    if recordTruthy latest = false then .ok ⟨current_version, "", "", 0⟩
    else
      let latest_version := latest.version.getD "0.0.0"
      match verGT latest_version current_version with
      | .error e => .err e
      | .ok true =>
        .ok ⟨latest_version, latest.changelog.getD "Nova atualização disponível",
             scheme ++ "://" ++ host ++ "/update/download/" ++ latest_version,
             latest.file_size.getD 0⟩
      | .ok false => .ok ⟨current_version, "", "", 0⟩

/-- Response of `/update/download/<version>`: a 404 with a message, the
`send_file` call (path, `download_name`, mimetype, `as_attachment`), or the
500 catch-all. -/
inductive DownloadResponse where
  | notFound (msg : String)
  | sendFile (path download_name mimetype : String) (as_attachment : Bool)
  | err (msg : String)
deriving DecidableEq

/-- HTTP status of a `/update/download` response. -/
def DownloadResponse.status : DownloadResponse → Nat
  | .notFound _ => 404
  | .sendFile _ _ _ _ => 200
  | .err _ => 500

/-- The `/update/download/<version>` handler. `pathExists` models
`os.path.exists` on the backing medium. -/
def download_update (ver : String) (store : Store) (pathExists : String → Bool) :
    DownloadResponse :=
  match dictLookup store ver with
  | none => .notFound "Versão não encontrada"
  | some info =>
    match info.file_path with
    | none => .notFound "Arquivo não encontrado"
    | some fp =>
      if fp = "" then .notFound "Arquivo não encontrado"
      else if pathExists fp = false then .notFound "Arquivo não encontrado"
      else .sendFile fp "MoneyBot.exe" "application/octet-stream" true

/-- The `file` part of a multipart upload request. -/
structure UploadedFile where
  filename : String
  content : List Nat
deriving DecidableEq

/-- The form fields of an upload request; each is `none` when the part is
absent from the request. -/
structure UploadRequest where
  key : Option String
  version : Option String
  changelog : Option String
  file : Option UploadedFile
deriving DecidableEq

/-- Response of `/update/upload`. -/
inductive UploadResponse where
  | success (version changelog : String) (file_size : Nat)
  | unauthorized (msg : String)
  | badRequest (msg : String)
deriving DecidableEq

/-- HTTP status of an `/update/upload` response. -/
def UploadResponse.status : UploadResponse → Nat
  | .success _ _ _ => 200
  | .unauthorized _ => 401
  | .badRequest _ => 400

/-- Result of an upload: the response plus the store (`versions.json` as
rewritten by `save_versions`) and the artifacts directory after the call. -/
structure UploadResult where
  response : UploadResponse
  store : Store
  fs : FS
deriving DecidableEq

/-- `UPLOAD_KEY` from `server.py`. -/
def UPLOAD_KEY : String := "moneybot-secret-2024"

/-- `UPDATES_DIR` from `server.py`. -/
def UPDATES_DIR : String := "updates"

/-- The `/update/upload` handler. `now` models `str(stat().st_mtime)` of the
freshly written artifact. -/
def upload_update (req : UploadRequest) (store : Store) (fs : FS) (now : String) :
    UploadResult :=
  if req.key ≠ some UPLOAD_KEY then ⟨.unauthorized "Chave inválida", store, fs⟩
  else
    let changelog := req.changelog.getD "Nova atualização"
    match req.version with
    | none => ⟨.badRequest "Versão não fornecida", store, fs⟩
    | some version =>
      if version = "" then ⟨.badRequest "Versão não fornecida", store, fs⟩
      else
        match req.file with
        | none => ⟨.badRequest "Arquivo não fornecido", store, fs⟩
        | some file =>
          if file.filename = "" then ⟨.badRequest "Arquivo vazio", store, fs⟩
          else
            let file_path := UPDATES_DIR ++ "/MoneyBot_" ++ version ++ ".exe"
            let fs1 := dictInsert fs file_path file.content
            let file_size := file.content.length
            let store1 := dictInsert store version
              ⟨some version, some changelog, some file_path, some file_size, some now⟩
            ⟨.success version changelog file_size, store1, fs1⟩

/-- Spec-side definition, written from the specification's words alone: `a`
denotes a strictly later release than `b` when its major is greater, or the
majors agree and its minor is greater, or those agree and its patch is
greater. -/
def specStrictlyLater (a b : Nat × Nat × Nat) : Prop :=
  a.1 > b.1 ∨ (a.1 = b.1 ∧ (a.2.1 > b.2.1 ∨ (a.2.1 = b.2.1 ∧ a.2.2 > b.2.2)))

/-- The strict triple order as a proposition. -/
def tripleLtP (a b : Nat × Nat × Nat) : Prop :=
  a.1 < b.1 ∨ (a.1 = b.1 ∧ (a.2.1 < b.2.1 ∨ (a.2.1 = b.2.1 ∧ a.2.2 < b.2.2)))

/-- The key/field coherence invariant of the store: each record's `version`
field equals the key it is stored under. -/
def storeInv (s : Store) : Prop := ∀ kv ∈ s, kv.2.version = some kv.1

/-- A fixed sample record used in witness statements. -/
def sampleRec : VersionRecord :=
  ⟨some "1.0.0", some "fixes", some "updates/MoneyBot_1.0.0.exe", some 10, some "100.0"⟩

instance : DecidablePred (fun s : Store => storeInv s) := fun s => by
  unfold storeInv
  infer_instance

deriving instance DecidableEq for Except

lemma tripleLt_iff (a b : Nat × Nat × Nat) : tripleLt a b = true ↔ tripleLtP a b := by
  obtain ⟨a1, a2, a3⟩ := a
  obtain ⟨b1, b2, b3⟩ := b
  simp [tripleLt, tripleLtP, Bool.or_eq_true, Bool.and_eq_true, decide_eq_true_eq,
    beq_iff_eq]

lemma tripleLt_false_iff (a b : Nat × Nat × Nat) : tripleLt a b = false ↔ ¬ tripleLtP a b := by
  rw [← tripleLt_iff]
  cases tripleLt a b <;> simp

lemma tripleLtP_arith (a b : Nat × Nat × Nat) :
    tripleLtP a b ↔ (a.1 < b.1 ∨ (a.1 = b.1 ∧ (a.2.1 < b.2.1 ∨ (a.2.1 = b.2.1 ∧ a.2.2 < b.2.2)))) :=
  Iff.rfl

lemma tripleLt_irrefl (a : Nat × Nat × Nat) : tripleLt a a = false := by
  rw [tripleLt_false_iff, tripleLtP_arith]
  omega

/-- From `b ≤ a` and `c ≤ b` conclude `c ≤ a` (in `tripleLt = false` form). -/
lemma tripleLt_le_trans {a b c : Nat × Nat × Nat}
    (h1 : tripleLt a b = false) (h2 : tripleLt b c = false) : tripleLt a c = false := by
  rw [tripleLt_false_iff, tripleLtP_arith] at h1 h2 ⊢
  omega

/-- From `a < b` and `b ≤ c` conclude `c` is not below `a`. -/
lemma tripleLt_not_lt_of_lt_le {a b c : Nat × Nat × Nat}
    (h1 : tripleLt a b = true) (h2 : tripleLt c b = false) : tripleLt c a = false := by
  rw [tripleLt_iff, tripleLtP_arith] at h1
  rw [tripleLt_false_iff, tripleLtP_arith] at h2 ⊢
  omega

/-- From `a < b` and `b ≤ c` conclude `a < c`. -/
lemma tripleLt_lt_of_lt_le {a b c : Nat × Nat × Nat}
    (h1 : tripleLt a b = true) (h2 : tripleLt c b = false) : tripleLt a c = true := by
  rw [tripleLt_iff, tripleLtP_arith] at h1 ⊢
  rw [tripleLt_false_iff, tripleLtP_arith] at h2
  omega

/-- A string in the specification's semantic-version domain parses under the
PEP 440 model to exactly its three components. -/
lemma pep_of_semver {s : String} {x y z : Nat} (h : parseSemVer s = some (x, y, z)) :
    pep440Parse s = some [x, y, z] := by
  unfold parseSemVer at h
  cases hp : pep440Parse s with
  | none => rw [hp] at h; cases h
  | some l =>
    rw [hp] at h
    rcases l with _ | ⟨a, _ | ⟨b, _ | ⟨c, _ | ⟨d, t⟩⟩⟩⟩ <;> simp_all

lemma verGT_eq_pep {a b : String} {pa pb : List Nat}
    (ha : pep440Parse a = some pa) (hb : pep440Parse b = some pb) :
    verGT a b = .ok (pepLt pb pa) := by
  simp [verGT, pkgParse, ha, hb]

/-- On three-component releases, `packaging`'s trailing-zero-stripped tuple
comparison is exactly the numeric triple order. -/
lemma pepLt_triple (x1 x2 x3 y1 y2 y3 : Nat) :
    pepLt [x1, x2, x3] [y1, y2, y3] = tripleLt (x1, x2, x3) (y1, y2, y3) := by
  have key : ∀ a b c : Nat, releaseKey [a, b, c] =
      if c = 0 then (if b = 0 then (if a = 0 then [] else [a]) else [a, b])
      else [a, b, c] := by
    intro a b c
    by_cases hc : c = 0 <;> by_cases hb : b = 0 <;> by_cases ha : a = 0 <;>
      simp [releaseKey, ha, hb, hc]
  unfold pepLt
  rw [key, key]
  by_cases h3 : x3 = 0 <;> by_cases h2 : x2 = 0 <;> by_cases h1 : x1 = 0 <;>
    by_cases g3 : y3 = 0 <;> by_cases g2 : y2 = 0 <;> by_cases g1 : y1 = 0 <;>
    simp [h1, h2, h3, g1, g2, g3, listLt, tripleLt] <;>
    (try rw [Bool.eq_iff_iff]) <;>
    (try simp only [Bool.or_eq_true, Bool.and_eq_true, decide_eq_true_eq, beq_iff_eq]) <;>
    omega

/-- Python tuple order: `a < b` and `b ≤ c` give `a < c`, on sequences of any
lengths. -/
lemma listLt_lt_of_lt_le : ∀ (a b c : List Nat),
    listLt a b = true → listLt c b = false → listLt a c = true := by
  intro a
  induction a with
  | nil =>
    intro b c hab hcb
    cases b with
    | nil => cases hab
    | cons y ys =>
      cases c with
      | nil => cases hcb
      | cons z zs => rfl
  | cons x xs ih =>
    intro b c hab hcb
    cases b with
    | nil => cases hab
    | cons y ys =>
      cases c with
      | nil => cases hcb
      | cons z zs =>
        simp only [listLt, Bool.or_eq_true, Bool.and_eq_true, decide_eq_true_eq,
          beq_iff_eq] at hab ⊢
        have hcb2 : ¬ (z < y ∨ (z = y ∧ listLt zs ys = true)) := by
          intro hcontra
          rw [show listLt (z :: zs) (y :: ys) =
              (decide (z < y) || (z == y && listLt zs ys)) from rfl] at hcb
          simp only [Bool.or_eq_false_iff, Bool.and_eq_false_iff,
            decide_eq_false_iff_not, beq_eq_false_iff_ne, ne_eq] at hcb
          rcases hcontra with h | ⟨hzy, hlt⟩
          · exact hcb.1 h
          · rcases hcb.2 with h | h
            · exact h hzy
            · rw [hlt] at h; cases h
        rcases hab with h | ⟨hxy, hlt⟩
        · left; omega
        · by_cases hzy : z = y
          · subst hzy
            have hzsys : listLt zs ys = false := by
              cases hz : listLt zs ys with
              | false => rfl
              | true => exact absurd (Or.inr ⟨rfl, hz⟩) hcb2
            right
            exact ⟨hxy, ih ys zs hlt hzsys⟩
          · left
            omega

lemma verGT_eq {a b : String} {pa pb : Nat × Nat × Nat}
    (ha : parseSemVer a = some pa) (hb : parseSemVer b = some pb) :
    verGT a b = .ok (tripleLt pb pa) := by
  obtain ⟨pa1, pa2, pa3⟩ := pa
  obtain ⟨pb1, pb2, pb3⟩ := pb
  rw [verGT_eq_pep (pep_of_semver ha) (pep_of_semver hb), pepLt_triple]

lemma verLe_eq {a b : String} {pa pb : Nat × Nat × Nat}
    (ha : parseSemVer a = some pa) (hb : parseSemVer b = some pb) :
    verLe a b = !tripleLt pb pa := by
  simp [verLe, ha, hb]

lemma verLe_true_elim {a b : String} (h : verLe a b = true) :
    ∃ pa pb, parseSemVer a = some pa ∧ parseSemVer b = some pb ∧ tripleLt pb pa = false := by
  unfold verLe at h
  cases ha : parseSemVer a with
  | none => rw [ha] at h; simp at h
  | some pa =>
    cases hb : parseSemVer b with
    | none => rw [ha, hb] at h; simp at h
    | some pb =>
      rw [ha, hb] at h
      exact ⟨pa, pb, rfl, rfl, by simpa using h⟩

lemma verLe_refl {a : String} {pa : Nat × Nat × Nat} (ha : parseSemVer a = some pa) :
    verLe a a = true := by
  rw [verLe_eq ha ha, tripleLt_irrefl]
  rfl

lemma dictLookup_insert_self {α : Type} (l : List (String × α)) (k : String) (v : α) :
    dictLookup (dictInsert l k v) k = some v := by
  induction l with
  | nil => simp [dictInsert, dictLookup]
  | cons kv rest ih =>
    obtain ⟨k0, w⟩ := kv
    by_cases h : k0 = k
    · simp [dictInsert, dictLookup, h]
    · simp [dictInsert, dictLookup, h, ih]

lemma dictLookup_insert_ne {α : Type} (l : List (String × α)) (k k1 : String) (v : α)
    (h : k1 ≠ k) : dictLookup (dictInsert l k v) k1 = dictLookup l k1 := by
  induction l with
  | nil => simp [dictInsert, dictLookup, Ne.symm h]
  | cons kv rest ih =>
    obtain ⟨k0, w⟩ := kv
    by_cases h0 : k0 = k
    · subst h0
      simp [dictInsert, dictLookup, Ne.symm h]
    · simp [dictInsert, dictLookup, h0, ih]

lemma dictInsert_length_of_mem {α : Type} (l : List (String × α)) (k : String) (v w : α)
    (h : dictLookup l k = some w) : (dictInsert l k v).length = l.length := by
  induction l with
  | nil => simp [dictLookup] at h
  | cons kv rest ih =>
    obtain ⟨k0, w0⟩ := kv
    by_cases h0 : k0 = k
    · simp [dictInsert, h0]
    · rw [dictLookup, if_neg h0] at h
      simp [dictInsert, h0, ih h]

lemma dictInsert_keys_of_mem {α : Type} (l : List (String × α)) (k : String) (v w : α)
    (h : dictLookup l k = some w) :
    (dictInsert l k v).map Prod.fst = l.map Prod.fst := by
  induction l with
  | nil => simp [dictLookup] at h
  | cons kv rest ih =>
    obtain ⟨k0, w0⟩ := kv
    by_cases h0 : k0 = k
    · simp [dictInsert, h0]
    · rw [dictLookup, if_neg h0] at h
      simp [dictInsert, h0, ih h]

lemma dictInsert_pres {α : Type} (P : String × α → Prop) (l : List (String × α))
    (k : String) (v : α) (hl : ∀ kv ∈ l, P kv) (hv : P (k, v)) :
    ∀ kv ∈ dictInsert l k v, P kv := by
  induction l with
  | nil => simpa [dictInsert] using hv
  | cons kv0 rest ih =>
    obtain ⟨k0, w0⟩ := kv0
    by_cases h0 : k0 = k
    · rw [dictInsert, if_pos h0]
      intro kv hkv
      rcases List.mem_cons.mp hkv with h | h
      · exact h ▸ hv
      · exact hl kv (List.mem_cons_of_mem _ h)
    · rw [dictInsert, if_neg h0]
      intro kv hkv
      rcases List.mem_cons.mp hkv with h | h
      · exact h ▸ hl _ (List.mem_cons_self _ _)
      · exact ih (fun kv hkv => hl kv (List.mem_cons_of_mem _ hkv)) kv h

/-- The scan loop keeps a running maximum: starting from a parseable
candidate `k`, over a list of parseable keys, it succeeds and returns a
record whose key bounds `k` and every scanned key from above. -/
lemma latestLoop_max (l : Store) : ∀ (k : String) (r : VersionRecord),
    (∀ kv ∈ l, (parseSemVer kv.1).isSome = true) →
    (parseSemVer k).isSome = true →
    ∃ k1 r1, latestLoop l (some k) (some r) = .ok (some r1) ∧
      ((k1 = k ∧ r1 = r) ∨ (k1, r1) ∈ l) ∧
      verLe k k1 = true ∧
      ∀ kv ∈ l, verLe kv.1 k1 = true := by
  induction l with
  | nil =>
    intro k r _ hk
    obtain ⟨pk, hpk⟩ := Option.isSome_iff_exists.mp hk
    exact ⟨k, r, rfl, Or.inl ⟨rfl, rfl⟩, verLe_refl hpk, by simp⟩
  | cons hd rest ih =>
    intro k r hall hk
    obtain ⟨v, i⟩ := hd
    obtain ⟨pk, hpk⟩ := Option.isSome_iff_exists.mp hk
    have hv : (parseSemVer v).isSome = true := hall (v, i) (List.mem_cons_self _ _)
    obtain ⟨pv, hpv⟩ := Option.isSome_iff_exists.mp hv
    have hrest : ∀ kv ∈ rest, (parseSemVer kv.1).isSome = true :=
      fun kv hkv => hall kv (List.mem_cons_of_mem _ hkv)
    have hgt : verGT v k = .ok (tripleLt pk pv) := verGT_eq hpv hpk
    cases hcmp : tripleLt pk pv with
    | true =>
      obtain ⟨k1, r1, heq, hmem, hle, hallle⟩ := ih v i hrest hv
      obtain ⟨pv2, pk1, hpv2, hpk1, hlt⟩ := verLe_true_elim hle
      rw [hpv] at hpv2
      injection hpv2 with hpv2
      subst hpv2
      refine ⟨k1, r1, ?_, ?_, ?_, ?_⟩
      · simp only [latestLoop, hgt, hcmp]
        exact heq
      · rcases hmem with ⟨hk1, hr1⟩ | hmem
        · exact Or.inr (by rw [hk1, hr1]; exact List.mem_cons_self _ _)
        · exact Or.inr (List.mem_cons_of_mem _ hmem)
      · rw [verLe_eq hpk hpk1, tripleLt_not_lt_of_lt_le hcmp hlt]
        rfl
      · intro kv hkv
        rcases List.mem_cons.mp hkv with he | hm
        · rw [he]
          exact hle
        · exact hallle kv hm
    | false =>
      obtain ⟨k1, r1, heq, hmem, hle, hallle⟩ := ih k r hrest hk
      obtain ⟨pk2, pk1, hpk2, hpk1, hlt⟩ := verLe_true_elim hle
      rw [hpk] at hpk2
      injection hpk2 with hpk2
      subst hpk2
      refine ⟨k1, r1, ?_, ?_, hle, ?_⟩
      · simp only [latestLoop, hgt, hcmp]
        exact heq
      · rcases hmem with ⟨hk1, hr1⟩ | hmem
        · exact Or.inl ⟨hk1, hr1⟩
        · exact Or.inr (List.mem_cons_of_mem _ hmem)
      · intro kv hkv
        rcases List.mem_cons.mp hkv with he | hm
        · rw [he, verLe_eq hpv hpk1, tripleLt_le_trans hlt hcmp]
          rfl
        · exact hallle kv hm

/-- `get_latest_version` on a nonempty store of parseable keys returns the
record of the key that sorts highest. -/
lemma get_latest_max (store : Store) (hne : store ≠ [])
    (hall : ∀ kv ∈ store, (parseSemVer kv.1).isSome = true) :
    ∃ k r, get_latest_version store = .ok (some r) ∧ (k, r) ∈ store ∧
      (parseSemVer k).isSome = true ∧ ∀ kv ∈ store, verLe kv.1 k = true := by
  match store, hne with
  | (k1, r1) :: rest, _ =>
    have hk1 : (parseSemVer k1).isSome = true := hall (k1, r1) (List.mem_cons_self _ _)
    have hrest : ∀ kv ∈ rest, (parseSemVer kv.1).isSome = true :=
      fun kv hkv => hall kv (List.mem_cons_of_mem _ hkv)
    obtain ⟨k, r, heq, hmem, hle, hallle⟩ := latestLoop_max rest k1 r1 hrest hk1
    obtain ⟨pk1, pk, hpk1, hpk, hlt⟩ := verLe_true_elim hle
    refine ⟨k, r, ?_, ?_, ?_, ?_⟩
    · simp only [get_latest_version, latestLoop]
      exact heq
    · rcases hmem with ⟨hk, hr⟩ | hmem
      · rw [hk, hr]
        exact List.mem_cons_self _ _
      · exact List.mem_cons_of_mem _ hmem
    · rw [hpk]
      rfl
    · intro kv hkv
      rcases List.mem_cons.mp hkv with he | hm
      · rw [he]
        exact hle
      · exact hallle kv hm

/-- Any property of key/record pairs holding on the loop inputs holds of the
returned record (paired with some key). -/
lemma latestLoop_pred (P : String → VersionRecord → Prop) (l : Store) :
    ∀ (k : String) (r res : VersionRecord),
    (∀ kv ∈ l, P kv.1 kv.2) → P k r →
    latestLoop l (some k) (some r) = .ok (some res) → ∃ k1, P k1 res := by
  induction l with
  | nil =>
    intro k r res _ hP heq
    simp only [latestLoop, Except.ok.injEq, Option.some.injEq] at heq
    exact ⟨k, heq ▸ hP⟩
  | cons hd rest ih =>
    intro k r res hall hP heq
    obtain ⟨v, i⟩ := hd
    have hPv : P v i := hall (v, i) (List.mem_cons_self _ _)
    have hrest : ∀ kv ∈ rest, P kv.1 kv.2 :=
      fun kv h => hall kv (List.mem_cons_of_mem _ h)
    simp only [latestLoop] at heq
    cases hvg : verGT v k with
    | error e =>
      rw [hvg] at heq
      simp at heq
    | ok b =>
      rw [hvg] at heq
      cases b with
      | false => exact ih k r res hrest hP heq
      | true => exact ih v i res hrest hPv heq

lemma verGT_ok_elim {a b : String} {res : Bool} (h : verGT a b = .ok res) :
    ∃ pa pb, pep440Parse a = some pa ∧ pep440Parse b = some pb ∧ pepLt pb pa = res := by
  unfold verGT pkgParse at h
  cases ha : pep440Parse a <;> rw [ha] at h
  · simp at h
  · cases hb : pep440Parse b <;> rw [hb] at h
    · simp at h
    · refine ⟨_, _, rfl, rfl, ?_⟩
      injection h

/-- Claim C4: for every current version (and any request scheme and host), the
check operation against an empty store returns HTTP 200 with a payload echoing
the client's current version, an empty changelog, an empty download URL, and
zero file size. -/
theorem check_empty_store_echoes_current :
    ∀ (cv scheme host : String),
      check_update (some cv) ([] : Store) scheme host = .ok ⟨cv, "", "", 0⟩ ∧
      (check_update (some cv) ([] : Store) scheme host).status = 200 :=
  fun _ _ _ => ⟨rfl, rfl⟩

/-- Claim C5: an upload whose key differs from the configured shared secret is
answered with the unauthorized (401) status and leaves both the version store
and the artifacts directory completely unchanged. -/
theorem wrong_key_unauthorized_store_unchanged :
    ∀ (req : UploadRequest) (store : Store) (fs : FS) (now : String),
      req.key ≠ some UPLOAD_KEY →
      upload_update req store fs now = ⟨.unauthorized "Chave inválida", store, fs⟩ ∧
      (upload_update req store fs now).response.status = 401 := by
  intro req store fs now h
  have heq : upload_update req store fs now = ⟨.unauthorized "Chave inválida", store, fs⟩ := by
    rw [upload_update, if_pos h]
  exact ⟨heq, by rw [heq]; rfl⟩

theorem wrong_key_unauthorized_store_unchanged_witness :
    upload_update ⟨some "wrong", some "1.0.1", none, some ⟨"f.exe", [1]⟩⟩
        [("1.0.0", sampleRec)] [] "1.0" =
      ⟨.unauthorized "Chave inválida", [("1.0.0", sampleRec)], []⟩ ∧
    (upload_update ⟨some "wrong", some "1.0.1", none, some ⟨"f.exe", [1]⟩⟩
        [("1.0.0", sampleRec)] [] "1.0").response.status = 401 :=
  wrong_key_unauthorized_store_unchanged _ _ _ _ (by decide)

/-- Claim C6: the download operation answers 404 with the "version not found"
error (`"Versão não encontrada"`) when the version is absent from the store,
404 with the "artifact not found" error (`"Arquivo não encontrado"`) when the
stored artifact path does not exist on the backing medium, and otherwise
streams the artifact as a binary attachment under the fixed client-facing
filename `MoneyBot.exe` — independent of the version — with octet-stream
content type. (`pathExists "" = false` states `os.path.exists` semantics for
the empty path.) -/
theorem download_update_responses :
    (∀ (v : String) (store : Store) (pathExists : String → Bool),
       dictLookup store v = none →
       download_update v store pathExists = .notFound "Versão não encontrada" ∧
       (download_update v store pathExists).status = 404) ∧
    (∀ (v : String) (store : Store) (pathExists : String → Bool)
       (info : VersionRecord) (fp : String),
       dictLookup store v = some info → info.file_path = some fp →
       pathExists fp = false →
       download_update v store pathExists = .notFound "Arquivo não encontrado" ∧
       (download_update v store pathExists).status = 404) ∧
    (∀ (v : String) (store : Store) (pathExists : String → Bool)
       (info : VersionRecord) (fp : String),
       dictLookup store v = some info → info.file_path = some fp →
       pathExists fp = true → pathExists "" = false →
       download_update v store pathExists =
         .sendFile fp "MoneyBot.exe" "application/octet-stream" true ∧
       (download_update v store pathExists).status = 200) := by
  refine ⟨?_, ?_, ?_⟩
  · intro v store pathExists h
    have heq : download_update v store pathExists = .notFound "Versão não encontrada" := by
      simp only [download_update, h]
    exact ⟨heq, by rw [heq]; rfl⟩
  · intro v store pathExists info fp h hfp hpe
    have heq : download_update v store pathExists = .notFound "Arquivo não encontrado" := by
      by_cases hblank : fp = ""
      · simp [download_update, h, hfp, hblank]
      · simp [download_update, h, hfp, hblank, hpe]
    exact ⟨heq, by rw [heq]; rfl⟩
  · intro v store pathExists info fp h hfp hpe hempty
    have hblank : fp ≠ "" := by
      intro hcontra
      rw [hcontra, hempty] at hpe
      cases hpe
    have heq : download_update v store pathExists =
        .sendFile fp "MoneyBot.exe" "application/octet-stream" true := by
      simp [download_update, h, hfp, hblank, hpe]
    exact ⟨heq, by rw [heq]; rfl⟩

theorem download_update_responses_witness :
    (download_update "2.0.0" [("1.0.0", sampleRec)] (fun _ => true) =
        .notFound "Versão não encontrada" ∧
      (download_update "2.0.0" [("1.0.0", sampleRec)] (fun _ => true)).status = 404) ∧
    (download_update "1.0.0" [("1.0.0", sampleRec)] (fun _ => false) =
        .notFound "Arquivo não encontrado" ∧
      (download_update "1.0.0" [("1.0.0", sampleRec)] (fun _ => false)).status = 404) ∧
    (download_update "1.0.0" [("1.0.0", sampleRec)] (fun p => !(p == "")) =
        .sendFile "updates/MoneyBot_1.0.0.exe" "MoneyBot.exe" "application/octet-stream" true ∧
      (download_update "1.0.0" [("1.0.0", sampleRec)] (fun p => !(p == ""))).status = 200) :=
  ⟨download_update_responses.1 "2.0.0" _ _ (by decide),
   download_update_responses.2.1 "1.0.0" _ _ sampleRec "updates/MoneyBot_1.0.0.exe"
     (by decide) (by decide) rfl,
   download_update_responses.2.2 "1.0.0" _ _ sampleRec "updates/MoneyBot_1.0.0.exe"
     (by decide) (by decide) (by decide) (by decide)⟩

/-- Evaluation of a fully valid upload request. -/
lemma upload_update_success (req : UploadRequest) (store : Store) (fs : FS)
    (now v : String) (f : UploadedFile) (hkey : req.key = some UPLOAD_KEY)
    (hver : req.version = some v) (hv : v ≠ "") (hf : req.file = some f)
    (hfn : f.filename ≠ "") :
    upload_update req store fs now =
      ⟨.success v (req.changelog.getD "Nova atualização") f.content.length,
       dictInsert store v
         ⟨some v, some (req.changelog.getD "Nova atualização"),
          some (UPDATES_DIR ++ "/MoneyBot_" ++ v ++ ".exe"),
          some f.content.length, some now⟩,
       dictInsert fs (UPDATES_DIR ++ "/MoneyBot_" ++ v ++ ".exe") f.content⟩ := by
  simp [upload_update, hkey, hver, hv, hf, hfn]

/-- Claim C9: a successful upload persists the uploaded bytes at the
deterministic path `updates/MoneyBot_<version>.exe` — a function of the
version alone, lying under the dedicated artifacts directory — overwriting
whatever artifact was previously stored at that path, and touching no other
path. -/
theorem upload_persists_artifact_under_updates_dir :
    ∀ (req : UploadRequest) (store : Store) (fs : FS) (now v : String) (f : UploadedFile),
      req.key = some UPLOAD_KEY → req.version = some v → v ≠ "" →
      req.file = some f → f.filename ≠ "" →
      dictLookup (upload_update req store fs now).fs
          (UPDATES_DIR ++ "/MoneyBot_" ++ v ++ ".exe") = some f.content ∧
      (∃ tail, UPDATES_DIR ++ "/MoneyBot_" ++ v ++ ".exe" = "updates/" ++ tail) ∧
      (∀ q, q ≠ UPDATES_DIR ++ "/MoneyBot_" ++ v ++ ".exe" →
        dictLookup (upload_update req store fs now).fs q = dictLookup fs q) := by
  intro req store fs now v f hkey hver hv hf hfn
  rw [upload_update_success req store fs now v f hkey hver hv hf hfn]
  refine ⟨dictLookup_insert_self _ _ _, ⟨"MoneyBot_" ++ (v ++ ".exe"), ?_⟩,
    fun q hq => dictLookup_insert_ne _ _ _ _ hq⟩
  rw [show (UPDATES_DIR ++ "/MoneyBot_" : String) = "updates/" ++ "MoneyBot_" from rfl]
  simp only [String.append_assoc]

theorem upload_persists_artifact_under_updates_dir_witness :
    dictLookup (upload_update ⟨some "moneybot-secret-2024", some "1.0.1", some "c",
        some ⟨"orig.bin", [9, 9]⟩⟩ [] [("updates/MoneyBot_1.0.1.exe", [0])] "7.0").fs
        (UPDATES_DIR ++ "/MoneyBot_" ++ "1.0.1" ++ ".exe") = some [9, 9] ∧
    (∃ tail, UPDATES_DIR ++ "/MoneyBot_" ++ "1.0.1" ++ ".exe" = "updates/" ++ tail) ∧
    (∀ q, q ≠ UPDATES_DIR ++ "/MoneyBot_" ++ "1.0.1" ++ ".exe" →
      dictLookup (upload_update ⟨some "moneybot-secret-2024", some "1.0.1", some "c",
          some ⟨"orig.bin", [9, 9]⟩⟩ [] [("updates/MoneyBot_1.0.1.exe", [0])] "7.0").fs q =
        dictLookup [("updates/MoneyBot_1.0.1.exe", [0])] q) :=
  upload_persists_artifact_under_updates_dir _ _ _ "7.0" "1.0.1" ⟨"orig.bin", [9, 9]⟩
    rfl rfl (by decide) rfl (by decide)

/-- Claim C8: a successful re-upload of a version already present in the
store overwrites that record in place: the store keeps its length and its key
sequence, the record under that key now carries the new changelog and file
size, every other key is untouched, and the whole updated store is what gets
persisted. -/
theorem reupload_overwrites_in_place :
    ∀ (req : UploadRequest) (store : Store) (fs : FS) (now v : String)
      (f : UploadedFile) (r0 : VersionRecord),
      req.key = some UPLOAD_KEY → req.version = some v → v ≠ "" →
      req.file = some f → f.filename ≠ "" →
      dictLookup store v = some r0 →
      (upload_update req store fs now).store.length = store.length ∧
      (upload_update req store fs now).store.map Prod.fst = store.map Prod.fst ∧
      dictLookup (upload_update req store fs now).store v =
        some ⟨some v, some (req.changelog.getD "Nova atualização"),
              some (UPDATES_DIR ++ "/MoneyBot_" ++ v ++ ".exe"),
              some f.content.length, some now⟩ ∧
      (∀ k, k ≠ v → dictLookup (upload_update req store fs now).store k = dictLookup store k) := by
  intro req store fs now v f r0 hkey hver hv hf hfn hlk
  rw [upload_update_success req store fs now v f hkey hver hv hf hfn]
  exact ⟨dictInsert_length_of_mem store v _ r0 hlk,
         dictInsert_keys_of_mem store v _ r0 hlk,
         dictLookup_insert_self _ _ _,
         fun k hk => dictLookup_insert_ne _ _ _ _ hk⟩

theorem reupload_overwrites_in_place_witness :
    (upload_update ⟨some "moneybot-secret-2024", some "1.0.0", some "new log",
        some ⟨"f.exe", [1, 2]⟩⟩ [("1.0.0", sampleRec)] [] "8.0").store.length =
      [("1.0.0", sampleRec)].length ∧
    (upload_update ⟨some "moneybot-secret-2024", some "1.0.0", some "new log",
        some ⟨"f.exe", [1, 2]⟩⟩ [("1.0.0", sampleRec)] [] "8.0").store.map Prod.fst =
      [("1.0.0", sampleRec)].map Prod.fst ∧
    dictLookup (upload_update ⟨some "moneybot-secret-2024", some "1.0.0", some "new log",
        some ⟨"f.exe", [1, 2]⟩⟩ [("1.0.0", sampleRec)] [] "8.0").store "1.0.0" =
      some ⟨some "1.0.0", some ((some "new log").getD "Nova atualização"),
            some (UPDATES_DIR ++ "/MoneyBot_" ++ "1.0.0" ++ ".exe"), some [1, 2].length,
            some "8.0"⟩ ∧
    (∀ k, k ≠ "1.0.0" →
      dictLookup (upload_update ⟨some "moneybot-secret-2024", some "1.0.0", some "new log",
          some ⟨"f.exe", [1, 2]⟩⟩ [("1.0.0", sampleRec)] [] "8.0").store k =
        dictLookup [("1.0.0", sampleRec)] k) :=
  reupload_overwrites_in_place _ _ _ "8.0" "1.0.0" ⟨"f.exe", [1, 2]⟩ sampleRec
    rfl rfl (by decide) rfl (by decide) (by decide)

/-- Claim C10: the invariant that every stored record's `version` field equals
the key it is stored under is preserved by the upload operation (the store's
only writer), and under it the latest-version scan returns a record carrying
exactly the key it is stored under, so key and field are interchangeable. -/
theorem store_key_matches_version_field :
    (∀ (req : UploadRequest) (store : Store) (fs : FS) (now : String),
       storeInv store → storeInv (upload_update req store fs now).store) ∧
    (∀ (store : Store) (r : VersionRecord), storeInv store →
       get_latest_version store = .ok (some r) →
       ∃ k, (k, r) ∈ store ∧ r.version = some k) := by
  constructor
  · intro req store fs now hinv
    by_cases hkey : req.key = some UPLOAD_KEY
    · cases hver : req.version with
      | none =>
        have heq : upload_update req store fs now =
            ⟨.badRequest "Versão não fornecida", store, fs⟩ := by
          simp [upload_update, hkey, hver]
        rw [heq]
        exact hinv
      | some v =>
        by_cases hv : v = ""
        · have heq : upload_update req store fs now =
              ⟨.badRequest "Versão não fornecida", store, fs⟩ := by
            simp [upload_update, hkey, hver, hv]
          rw [heq]
          exact hinv
        · cases hf : req.file with
          | none =>
            have heq : upload_update req store fs now =
                ⟨.badRequest "Arquivo não fornecido", store, fs⟩ := by
              simp [upload_update, hkey, hver, hv, hf]
            rw [heq]
            exact hinv
          | some f =>
            by_cases hfn : f.filename = ""
            · have heq : upload_update req store fs now =
                  ⟨.badRequest "Arquivo vazio", store, fs⟩ := by
                simp [upload_update, hkey, hver, hv, hf, hfn]
              rw [heq]
              exact hinv
            · rw [upload_update_success req store fs now v f hkey hver hv hf hfn]
              exact dictInsert_pres _ store _ _ hinv rfl
    · have heq : upload_update req store fs now =
          ⟨.unauthorized "Chave inválida", store, fs⟩ := by
        rw [upload_update, if_pos hkey]
      rw [heq]
      exact hinv
  · intro store r hinv hlat
    match store, hinv, hlat with
    | [], _, hlat => simp [get_latest_version] at hlat
    | (k1, r1) :: rest, hinv, hlat =>
      simp only [get_latest_version, latestLoop] at hlat
      exact latestLoop_pred (fun k record => (k, record) ∈ (k1, r1) :: rest ∧
          record.version = some k) rest k1 r1 r
        (fun kv hkv => ⟨List.mem_cons_of_mem _ hkv, hinv kv (List.mem_cons_of_mem _ hkv)⟩)
        ⟨List.mem_cons_self _ _, hinv (k1, r1) (List.mem_cons_self _ _)⟩ hlat

theorem store_key_matches_version_field_witness :
    storeInv (upload_update ⟨some "moneybot-secret-2024", some "1.0.1", some "n",
        some ⟨"h.exe", [5]⟩⟩ [("1.0.0", sampleRec)] [] "5.0").store ∧
    ∃ k, (k, sampleRec) ∈ [("1.0.0", sampleRec)] ∧ sampleRec.version = some k :=
  ⟨store_key_matches_version_field.1 _ [("1.0.0", sampleRec)] [] "5.0" (by decide),
   store_key_matches_version_field.2 [("1.0.0", sampleRec)] sampleRec (by decide) (by decide)⟩

/-- Claim C1: on version strings parseable as semantic versions the service's
comparison is the numeric major-then-minor-then-patch ordering — the
comparison answers "later" exactly when the left version denotes a strictly
later release in the sense of the specification — in particular "1.0.10"
sorts above "1.0.9" (numeric, not lexical), and the latest-version scan
returns a record stored under a key that sorts highest under this ordering. -/
theorem semver_compare_orders_numerically :
    (∀ (a b : String) (va vb : Nat × Nat × Nat),
       parseSemVer a = some va → parseSemVer b = some vb →
       (verGT a b = .ok true ↔ specStrictlyLater va vb)) ∧
    verGT "1.0.10" "1.0.9" = .ok true ∧
    (∀ store : Store, store ≠ [] →
       (∀ kv ∈ store, (parseSemVer kv.1).isSome = true) →
       ∃ k r, get_latest_version store = .ok (some r) ∧ (k, r) ∈ store ∧
         ∀ kv ∈ store, verLe kv.1 k = true) := by
  refine ⟨?_, by decide, ?_⟩
  · intro a b va vb ha hb
    rw [verGT_eq ha hb]
    obtain ⟨a1, a2, a3⟩ := va
    obtain ⟨b1, b2, b3⟩ := vb
    simp only [Except.ok.injEq, tripleLt_iff]
    unfold tripleLtP specStrictlyLater
    simp only [gt_iff_lt]
    omega
  · intro store hne hall
    obtain ⟨k, r, h1, h2, _, h4⟩ := get_latest_max store hne hall
    exact ⟨k, r, h1, h2, h4⟩

theorem semver_compare_orders_numerically_witness :
    (verGT "1.2.3" "1.2.2" = .ok true ↔ specStrictlyLater (1, 2, 3) (1, 2, 2)) ∧
    (∃ k r, get_latest_version [("1.0.0", sampleRec)] = .ok (some r) ∧
      (k, r) ∈ [("1.0.0", sampleRec)] ∧
      ∀ kv ∈ [("1.0.0", sampleRec)], verLe kv.1 k = true) :=
  ⟨semver_compare_orders_numerically.1 "1.2.3" "1.2.2" (1, 2, 3) (1, 2, 2)
     (by decide) (by decide),
   semver_compare_orders_numerically.2.2 [("1.0.0", sampleRec)] (by simp) (by decide)⟩

/-- Evaluation of the update-available branch of `check_update`. -/
lemma check_update_eval (cvp : Option String) (store : Store) (scheme host : String)
    (r : VersionRecord) (k : String)
    (hlat : get_latest_version store = .ok (some r)) (hver : r.version = some k)
    (hgt : verGT k (cvp.getD "0.0.0") = .ok true) :
    check_update cvp store scheme host =
      .ok ⟨k, r.changelog.getD "Nova atualização disponível",
           scheme ++ "://" ++ host ++ "/update/download/" ++ k,
           r.file_size.getD 0⟩ := by
  have htr : recordTruthy r = true := by simp [recordTruthy, hver]
  simp [check_update, hlat, htr, hver, hgt]

/-- Claim C3 counterexample: a stored record whose changelog is the blank
string — exactly what upload stores when the client submits an empty
changelog field — is served with a blank changelog, not the fallback
`"Nova atualização disponível"`, so the fallback does not apply whenever the
stored changelog is blank. -/
theorem blank_changelog_no_fallback_cex :
    (upload_update ⟨some "moneybot-secret-2024", some "1.0.0", some "",
        some ⟨"f.exe", [0, 1, 2, 3, 4]⟩⟩ [] [] "99.0").store =
      [("1.0.0", ⟨some "1.0.0", some "", some "updates/MoneyBot_1.0.0.exe",
        some 5, some "99.0"⟩)] ∧
    check_update (some "0.9.0")
        [("1.0.0", ⟨some "1.0.0", some "", some "updates/MoneyBot_1.0.0.exe",
          some 5, some "99.0"⟩)] "https" "ex.com" =
      .ok ⟨"1.0.0", "", "https://ex.com/update/download/1.0.0", 5⟩ ∧
    ("" : String) ≠ "Nova atualização disponível" :=
  ⟨by decide, by decide, by decide⟩

/-- Claim C3 (amended): when every stored key is parseable, records carry the
keys they are stored under, and some stored version is strictly later than
the client's current version, the check operation responds 200 with the
highest-sorting version, the stored changelog with the fallback
`"Nova atualização disponível"` applied only when the record has no changelog
field at all (a blank stored changelog is returned unchanged), a download URL
built from the request's scheme and host plus the version, and the stored
file size (0 when the field is absent). -/
theorem update_available_payload_fields :
    ∀ (cv scheme host : String) (store : Store),
      storeInv store →
      (∀ kv ∈ store, (parseSemVer kv.1).isSome = true) →
      (∃ kv ∈ store, verGT kv.1 cv = .ok true) →
      ∃ k r, (k, r) ∈ store ∧ (∀ kv ∈ store, verLe kv.1 k = true) ∧
        check_update (some cv) store scheme host =
          .ok ⟨k, r.changelog.getD "Nova atualização disponível",
               scheme ++ "://" ++ host ++ "/update/download/" ++ k,
               r.file_size.getD 0⟩ := by
  intro cv scheme host store hinv hall hex
  obtain ⟨kv0, hmem0, hgt0⟩ := hex
  have hne : store ≠ [] := by
    intro hcontra
    rw [hcontra] at hmem0
    cases hmem0
  obtain ⟨k, r, hlat, hmem, hpk, hmax⟩ := get_latest_max store hne hall
  obtain ⟨p0, pcv, hp0, hpcv, hlt0⟩ := verGT_ok_elim hgt0
  obtain ⟨t0, tk, ht0, htk, hle0⟩ := verLe_true_elim (hmax kv0 hmem0)
  obtain ⟨t01, t02, t03⟩ := t0
  obtain ⟨tk1, tk2, tk3⟩ := tk
  have hp0b := pep_of_semver ht0
  rw [hp0] at hp0b
  injection hp0b with hp0b
  subst hp0b
  have hpepk : pepLt [tk1, tk2, tk3] [t01, t02, t03] = false := by
    rw [pepLt_triple]
    exact hle0
  have hcmp : pepLt pcv [tk1, tk2, tk3] = true :=
    listLt_lt_of_lt_le _ _ _ hlt0 hpepk
  have hver : r.version = some k := hinv (k, r) hmem
  have hgtk : verGT k cv = .ok true := by
    rw [verGT_eq_pep (pep_of_semver htk) hpcv, hcmp]
  exact ⟨k, r, hmem, hmax,
    check_update_eval (some cv) store scheme host r k hlat hver hgtk⟩

theorem update_available_payload_fields_witness :
    ∃ k r, (k, r) ∈ [("1.0.0", sampleRec)] ∧
      (∀ kv ∈ [("1.0.0", sampleRec)], verLe kv.1 k = true) ∧
      check_update (some "0.9.0") [("1.0.0", sampleRec)] "https" "ex.com" =
        .ok ⟨k, r.changelog.getD "Nova atualização disponível",
             "https" ++ "://" ++ "ex.com" ++ "/update/download/" ++ k,
             r.file_size.getD 0⟩ :=
  update_available_payload_fields "0.9.0" "https" "ex.com" [("1.0.0", sampleRec)]
    (by decide) (by decide) ⟨("1.0.0", sampleRec), by simp, by decide⟩

/-- Claim C2 counterexample: the upload operation accepts the unparseable
version string "banana" with a success response and stores it, instead of
rejecting it or treating it as an error. -/
theorem upload_stores_unparseable_version_cex :
    parseSemVer "banana" = none ∧
    (upload_update ⟨some "moneybot-secret-2024", some "banana", none,
        some ⟨"MoneyBot.exe", [1, 2, 3]⟩⟩ [] [] "1.0").response =
      .success "banana" "Nova atualização" 3 ∧
    dictLookup (upload_update ⟨some "moneybot-secret-2024", some "banana", none,
        some ⟨"MoneyBot.exe", [1, 2, 3]⟩⟩ [] [] "1.0").store "banana" =
      some ⟨some "banana", some "Nova atualização", some "updates/MoneyBot_banana.exe",
            some 3, some "1.0"⟩ :=
  ⟨by decide, by decide, by decide⟩

/-- Claim C2 (amended): the upload operation performs no parseability check —
any non-empty version string, parseable as a semantic version or not, is
accepted and stored with a success response. A stored version outside the
semantic-version domain is not reliably errored later either: when it still
parses under PEP 440 (e.g. "1.0"), the check operation silently orders it and
answers 200; only a version outside PEP 440 entirely (e.g. "banana") makes
the comparison raise, surfacing as a 500 error. -/
theorem upload_no_parse_validation :
    (∀ (req : UploadRequest) (store : Store) (fs : FS) (now v : String) (f : UploadedFile),
       req.key = some UPLOAD_KEY → req.version = some v → v ≠ "" →
       req.file = some f → f.filename ≠ "" →
       (upload_update req store fs now).response =
         .success v (req.changelog.getD "Nova atualização") f.content.length) ∧
    (parseSemVer "1.0" = none ∧ pep440Parse "1.0" = some [1, 0] ∧
     check_update (some "0.9.0")
        (upload_update ⟨some "moneybot-secret-2024", some "1.0", none,
          some ⟨"f.exe", [1, 2, 3]⟩⟩ [] [] "9.0").store "http" "h" =
        .ok ⟨"1.0", "Nova atualização", "http://h/update/download/1.0", 3⟩ ∧
     (check_update (some "0.9.0")
        (upload_update ⟨some "moneybot-secret-2024", some "1.0", none,
          some ⟨"f.exe", [1, 2, 3]⟩⟩ [] [] "9.0").store "http" "h").status = 200) ∧
    (pep440Parse "banana" = none ∧
     check_update (some "1.0.0")
        (upload_update ⟨some "moneybot-secret-2024", some "banana", none,
          some ⟨"f.exe", [1]⟩⟩ [] [] "9.0").store "http" "h" =
        .err "Invalid version: banana" ∧
     (check_update (some "1.0.0")
        (upload_update ⟨some "moneybot-secret-2024", some "banana", none,
          some ⟨"f.exe", [1]⟩⟩ [] [] "9.0").store "http" "h").status = 500) := by
  refine ⟨?_, by decide, by decide⟩
  intro req store fs now v f hkey hver hv hf hfn
  rw [upload_update_success req store fs now v f hkey hver hv hf hfn]

theorem upload_no_parse_validation_witness :
    (upload_update ⟨some "moneybot-secret-2024", some "2.0.0", some "c",
        some ⟨"g.exe", [7]⟩⟩ [] [] "2.0").response = .success "2.0.0" "c" 1 :=
  upload_no_parse_validation.1 _ [] [] "2.0" "2.0.0" ⟨"g.exe", [7]⟩
    rfl rfl (by decide) rfl (by decide)

/-- Claim C7 counterexample: a malformed `current_version` is not replaced by
"0.0.0" — against the empty store it is echoed back verbatim — and against a
store holding a published version it produces a 500 error response, so a
malformed `current_version` does cause an error response. -/
theorem malformed_current_version_cex :
    parseSemVer "not-a-version" = none ∧
    check_update (some "not-a-version") ([] : Store) "http" "h" =
      .ok ⟨"not-a-version", "", "", 0⟩ ∧
    ("not-a-version" : String) ≠ "0.0.0" ∧
    check_update (some "not-a-version") [("1.0.0", sampleRec)] "http" "h" =
      .err "Invalid version: not-a-version" ∧
    (check_update (some "not-a-version") [("1.0.0", sampleRec)] "http" "h").status = 500 := by
  refine ⟨by decide, by decide, by decide, by decide, by decide⟩

/-- Claim C7 (amended): the `current_version` input defaults to "0.0.0" only
when the query parameter is absent; a malformed value is used verbatim — it
is echoed unchanged in the empty-store response, and once a published version
exists its fate depends on `packaging`: a value that is not a semantic
version but still parses under PEP 440 (e.g. "1.0") is compared normally and
answered 200, while a value outside PEP 440 (e.g. "banana") makes the
comparison raise, producing a 500 error response. -/
theorem current_version_default_only_when_absent :
    (∀ (store : Store) (scheme host : String),
       check_update none store scheme host = check_update (some "0.0.0") store scheme host) ∧
    (∀ (cv scheme host : String), parseSemVer cv = none →
       check_update (some cv) ([] : Store) scheme host = .ok ⟨cv, "", "", 0⟩) ∧
    (parseSemVer "1.0" = none ∧
     check_update (some "1.0") [("1.0.0", sampleRec)] "http" "h" = .ok ⟨"1.0", "", "", 0⟩ ∧
     (check_update (some "1.0") [("1.0.0", sampleRec)] "http" "h").status = 200) ∧
    (pep440Parse "banana" = none ∧
     check_update (some "banana") [("1.0.0", sampleRec)] "http" "h" =
       .err "Invalid version: banana" ∧
     (check_update (some "banana") [("1.0.0", sampleRec)] "http" "h").status = 500) :=
  ⟨fun _ _ _ => rfl, fun _ _ _ _ => rfl, by decide, by decide⟩

theorem current_version_default_only_when_absent_witness :
    check_update (some "xyz") ([] : Store) "http" "h" = .ok ⟨"xyz", "", "", 0⟩ :=
  current_version_default_only_when_absent.2.1 "xyz" "http" "h" (by decide)
